import Mathlib

/-!
Verification of the video-timeline-analyzer repository against its design
specification.

The first part embeds the `VideoUpload` React component
(src/frontend/src/components/Navbar.js): file validation, upload state,
and the status-polling monitor, as an explicit state machine.

The second part embeds the `Timeline` component (segment filtering and
topic toggling).

The third part models, from the specification, the Screen-Change
Segmenter (§4.2) and the Content Correlator confidence scoring (§4.5),
whose backend implementation (core/) is not present in the source tree.
-/

namespace VideoTimeline

/-- A file offered to the upload handler: the MIME `type` string and the
size in bytes, the two fields of the JS `File` object that
`handleFileSelect` inspects. -/
structure VideoFile where
  type : String
  size : ℕ
deriving DecidableEq

/-- The five upload states listed in the comment on the `uploadState`
hook: `idle, uploading, processing, completed, error`. -/
def validUploadStates : List String :=
  ["idle", "uploading", "processing", "completed", "error"]

/-- Observable state of the `VideoUpload` component: the five `useState`
hooks that the claims mention, plus `monitorActive`, which models whether
the `processingInterval` timer is currently running. -/
structure UState where
  uploadState : String
  uploadProgress : ℕ
  processProgress : ℕ
  statusMessage : String
  sessionId : Option String
  monitorActive : Bool
deriving DecidableEq

/-- Initial component state: `useState('idle')`, progress hooks at 0,
empty message, no session, no interval. -/
def initState : UState :=
  { uploadState := "idle", uploadProgress := 0, processProgress := 0,
    statusMessage := "", sessionId := none, monitorActive := false }

/-- `validTypes` from `handleFileSelect`, verbatim. -/
def validTypes : List String :=
  ["video/mp4", "video/avi", "video/quicktime", "video/x-msvideo"]

/-- The 500MB ceiling `500 * 1024 * 1024` from `handleFileSelect`. -/
def sizeLimit : ℕ := 500 * 1024 * 1024

/-- Synchronous prefix of `uploadFile`: `setUploadState('uploading')`
and `setUploadProgress(0)` before the POST is awaited. -/
def uploadFileStart (s : UState) : UState :=
  { s with uploadState := "uploading", uploadProgress := 0 }

/-- `handleFileSelect`: reject when the MIME type is not in `validTypes`
(alert and early return), then reject when the size exceeds the 500MB
ceiling, otherwise call `uploadFile`. -/
def handleFileSelect (f : VideoFile) (s : UState) : UState :=
  if validTypes.contains f.type = false then s
  else if sizeLimit < f.size then s
  else uploadFileStart s

/-- Resolution of the upload POST with a session id: `setSessionId`,
`setUploadState('processing')`, `setStatusMessage('Starting analysis...')`
and `startProcessingMonitor` (which installs the interval). -/
def uploadResolveOk (sid : String) (s : UState) : UState :=
  { s with sessionId := some sid, uploadState := "processing",
           statusMessage := "Starting analysis...", monitorActive := true }

/-- Rejection of the upload POST: the catch branch of `uploadFile`. -/
def uploadResolveErr (s : UState) : UState :=
  { s with uploadState := "error",
           statusMessage := "Upload failed. Please try again." }

/-- Body of a `/status/{sessionId}` response, the three fields the
monitor callback reads. -/
structure StatusResponse where
  status : String
  progress : ℕ
  message : String
deriving DecidableEq

/-- One successful tick of the interval callback in
`startProcessingMonitor`: record progress and message, then on
`completed` clear the interval and move to `completed`; on `error` clear
the interval, move to `error`, and overwrite the message with
`'Processing failed: ' + status.message`; otherwise keep polling. -/
def pollSuccess (r : StatusResponse) (s : UState) : UState :=
  let s1 := { s with processProgress := r.progress, statusMessage := r.message }
  if r.status = "completed" then
    { s1 with monitorActive := false, uploadState := "completed" }
  else if r.status = "error" then
    { s1 with monitorActive := false, uploadState := "error",
              statusMessage := "Processing failed: " ++ r.message }
  else s1

/-- One tick of the interval callback: either the status request
resolved with a body, or it failed (the catch branch only logs). -/
inductive PollEvent where
  | ok (r : StatusResponse)
  | failed
deriving DecidableEq

/-- Effect of one interval tick on the component state. -/
def pollStep : PollEvent → UState → UState
  | .ok r, s => pollSuccess r s
  | .failed, s => s

/-- Run the interval against a list of tick outcomes: a tick fires (and
therefore a status request is issued) only while the interval is
running.  Returns the final state together with the number of status
requests issued. -/
def monitorRun : List PollEvent → UState → UState × ℕ
  | [], s => (s, 0)
  | e :: rest, s =>
      if s.monitorActive then
        let p := monitorRun rest (pollStep e s)
        (p.1, p.2 + 1)
      else (s, 0)

/-- The externally triggered events of the `VideoUpload` component. -/
inductive UEvent where
  | fileSelect (f : VideoFile)
  | uploadProgressTick (p : ℕ)
  | uploadOk (sid : String)
  | uploadErr
  | poll (e : PollEvent)
  | reset
deriving DecidableEq

/-- Transition function of the component: each constructor matches one
handler in Navbar.js (`handleFileSelect`, `onUploadProgress`, the two
outcomes of the upload POST, one interval tick, `resetUpload`). -/
def step : UEvent → UState → UState
  | .fileSelect f, s => handleFileSelect f s
  | .uploadProgressTick p, s => { s with uploadProgress := p }
  | .uploadOk sid, s => uploadResolveOk sid s
  | .uploadErr, s => uploadResolveErr s
  | .poll e, s => if s.monitorActive then pollStep e s else s
  | .reset, s =>
      { s with uploadState := "idle", uploadProgress := 0, processProgress := 0,
               statusMessage := "", sessionId := none, monitorActive := false }

/-- A run of the component from a state through a list of events. -/
def run (es : List UEvent) (s : UState) : UState :=
  es.foldl (fun t e => step e t) s

/-- An inactive interval issues no request and changes nothing. -/
lemma monitorRun_inactive {s : UState} (h : s.monitorActive = false) :
    ∀ evs : List PollEvent, monitorRun evs s = (s, 0) := by
  intro evs
  cases evs with
  | nil => rfl
  | cons e rest => simp [monitorRun, h]

/-- Every single transition lands in one of the five enumerated upload
states, provided the source state was in one of them. -/
lemma step_uploadState_closed (e : UEvent) (s : UState)
    (hs : s.uploadState ∈ validUploadStates) :
    (step e s).uploadState ∈ validUploadStates := by
  cases e with
  | fileSelect f =>
      simp only [step, handleFileSelect]
      split
      · exact hs
      · split
        · exact hs
        · simp [uploadFileStart, validUploadStates]
  | uploadProgressTick p => simpa [step] using hs
  | uploadOk sid => simp [step, uploadResolveOk, validUploadStates]
  | uploadErr => simp [step, uploadResolveErr, validUploadStates]
  | poll pe =>
      simp only [step]
      split
      · cases pe with
        | ok r =>
            simp only [pollStep, pollSuccess]
            split
            · simp [validUploadStates]
            · split
              · simp [validUploadStates]
              · simpa using hs
        | failed => exact hs
      · exact hs
  | reset => simp [step, validUploadStates]

/-- C1: the spec, the component's own alert text, its `accept` attribute
and the README all state that MKV files are accepted, but `validTypes`
lacks `video/x-matroska`, so `handleFileSelect` rejects an MKV file that
meets the size constraint and never begins its upload: the state is
unchanged and no upload starts. -/
theorem mkv_rejected_despite_ui :
    (VideoFile.mk "video/x-matroska" 1024).size ≤ sizeLimit ∧
    handleFileSelect (VideoFile.mk "video/x-matroska" 1024) initState = initState ∧
    (handleFileSelect (VideoFile.mk "video/x-matroska" 1024) initState).uploadState
      ≠ "uploading" := by
  refine ⟨by decide, by decide, by decide⟩

/-- C2: a polled status stops the monitor (clears the interval) exactly
when it reports `completed` or `error`; after such a terminal status no
further status request is issued, and any non-terminal status leaves the
interval running. -/
theorem monitor_stops_iff_terminal (s : UState) (r : StatusResponse)
    (hact : s.monitorActive = true) :
    ((pollSuccess r s).monitorActive = false ↔
        r.status = "completed" ∨ r.status = "error") ∧
    (r.status = "completed" ∨ r.status = "error" →
        ∀ evs : List PollEvent, monitorRun evs (pollSuccess r s) = (pollSuccess r s, 0)) ∧
    (r.status ≠ "completed" → r.status ≠ "error" →
        (pollSuccess r s).monitorActive = true) := by
  by_cases hc : r.status = "completed"
  · refine ⟨by simp [pollSuccess, hc], fun _ => ?_, fun h => absurd hc h⟩
    exact monitorRun_inactive (by simp [pollSuccess, hc])
  · by_cases he : r.status = "error"
    · refine ⟨by simp [pollSuccess, hc, he], fun _ => ?_, fun _ h => absurd he h⟩
      exact monitorRun_inactive (by simp [pollSuccess, hc, he])
    · refine ⟨?_, ?_, fun _ _ => by simp [pollSuccess, hc, he, hact]⟩
      · simp [pollSuccess, hc, he, hact]
      · rintro (h | h)
        · exact absurd h hc
        · exact absurd h he

/-- Witness for C2 at a concrete session state, one `completed` status
and one `error` status. -/
theorem monitor_stops_iff_terminal_w :
    (uploadResolveOk "s1" initState).monitorActive = true ∧
    (pollSuccess ⟨"completed", 100, "done"⟩ (uploadResolveOk "s1" initState)).monitorActive
      = false ∧
    monitorRun [PollEvent.failed, PollEvent.ok ⟨"segmenting", 10, "m"⟩]
        (pollSuccess ⟨"completed", 100, "done"⟩ (uploadResolveOk "s1" initState))
      = (pollSuccess ⟨"completed", 100, "done"⟩ (uploadResolveOk "s1" initState), 0) ∧
    (pollSuccess ⟨"error", 30, "boom"⟩ (uploadResolveOk "s1" initState)).monitorActive
      = false ∧
    (pollSuccess ⟨"segmenting", 30, "working"⟩ (uploadResolveOk "s1" initState)).monitorActive
      = true :=
  ⟨rfl,
   (monitor_stops_iff_terminal (uploadResolveOk "s1" initState)
      ⟨"completed", 100, "done"⟩ rfl).1.mpr (Or.inl rfl),
   (monitor_stops_iff_terminal (uploadResolveOk "s1" initState)
      ⟨"completed", 100, "done"⟩ rfl).2.1 (Or.inl rfl)
      [PollEvent.failed, PollEvent.ok ⟨"segmenting", 10, "m"⟩],
   (monitor_stops_iff_terminal (uploadResolveOk "s1" initState)
      ⟨"error", 30, "boom"⟩ rfl).1.mpr (Or.inr rfl),
   (monitor_stops_iff_terminal (uploadResolveOk "s1" initState)
      ⟨"segmenting", 30, "working"⟩ rfl).2.2 (by decide) (by decide)⟩

/-- C3: in every state reachable from the initial state, `uploadState`
is one of the five enumerated strings
`idle, uploading, processing, completed, error`. -/
theorem upload_state_closed :
    ∀ es : List UEvent, (run es initState).uploadState ∈ validUploadStates := by
  have hrun : ∀ (es : List UEvent) (s : UState),
      s.uploadState ∈ validUploadStates →
      (run es s).uploadState ∈ validUploadStates := by
    intro es
    induction es with
    | nil => intro s hs; exact hs
    | cons e rest ih =>
        intro s hs
        exact ih (step e s) (step_uploadState_closed e s hs)
  exact fun es => hrun es initState (by simp [initState, validUploadStates])

/-- C4: a file larger than `500 * 1024 * 1024` bytes is rejected by
`handleFileSelect` — the state is unchanged, so no upload starts and no
session is created — while a file at or under the ceiling whose MIME
type passes the `validTypes` check proceeds into `uploadFile`. -/
theorem size_ceiling_gate (f : VideoFile) (s : UState) :
    (sizeLimit < f.size → handleFileSelect f s = s) ∧
    (f.type ∈ validTypes → f.size ≤ sizeLimit →
        handleFileSelect f s = uploadFileStart s ∧
        (handleFileSelect f s).uploadState = "uploading") := by
  constructor
  · intro hbig
    simp [handleFileSelect, hbig]
  · intro htype hsize
    have hc : validTypes.contains f.type = true :=
      List.elem_eq_true_of_mem htype
    have hns : ¬ sizeLimit < f.size := not_lt.mpr hsize
    have h1 : handleFileSelect f s = uploadFileStart s := by
      unfold handleFileSelect
      rw [hc]
      simp [hns]
    exact ⟨h1, by rw [h1]; rfl⟩

/-- Witness for C4: a 600MB MP4 is rejected unchanged; a small MP4
proceeds to the uploading state. -/
theorem size_ceiling_gate_w :
    (sizeLimit < (VideoFile.mk "video/mp4" (600 * 1024 * 1024)).size ∧
      handleFileSelect (VideoFile.mk "video/mp4" (600 * 1024 * 1024)) initState
        = initState) ∧
    ("video/mp4" ∈ validTypes ∧ (VideoFile.mk "video/mp4" 12345).size ≤ sizeLimit ∧
      (handleFileSelect (VideoFile.mk "video/mp4" 12345) initState).uploadState
        = "uploading") :=
  ⟨⟨by decide,
    (size_ceiling_gate (VideoFile.mk "video/mp4" (600 * 1024 * 1024)) initState).1
      (by decide)⟩,
   ⟨by decide, by decide,
    ((size_ceiling_gate (VideoFile.mk "video/mp4" 12345) initState).2
      (by decide) (by decide)).2⟩⟩

/-- C5: while the monitor is running, a polled status whose `status`
field is `error` moves the component to the `error` state and sets the
displayed message to `'Processing failed: '` concatenated with the
message carried by that status. -/
theorem error_status_surfaced (s : UState) (r : StatusResponse)
    (hact : s.monitorActive = true) (herr : r.status = "error") :
    (step (UEvent.poll (PollEvent.ok r)) s).uploadState = "error" ∧
    (step (UEvent.poll (PollEvent.ok r)) s).statusMessage
      = "Processing failed: " ++ r.message := by
  have hne : r.status ≠ "completed" := by rw [herr]; decide
  constructor <;> simp [step, hact, pollStep, pollSuccess, hne, herr]

/-- Witness for C5 at a concrete active session and error status. -/
theorem error_status_surfaced_w :
    (uploadResolveOk "s1" initState).monitorActive = true ∧
    (StatusResponse.mk "error" 40 "decode failure").status = "error" ∧
    (step (UEvent.poll (PollEvent.ok ⟨"error", 40, "decode failure"⟩))
        (uploadResolveOk "s1" initState)).uploadState = "error" ∧
    (step (UEvent.poll (PollEvent.ok ⟨"error", 40, "decode failure"⟩))
        (uploadResolveOk "s1" initState)).statusMessage
      = "Processing failed: " ++ "decode failure" :=
  ⟨rfl, rfl,
   (error_status_surfaced (uploadResolveOk "s1" initState)
      ⟨"error", 40, "decode failure"⟩ rfl rfl).1,
   (error_status_surfaced (uploadResolveOk "s1" initState)
      ⟨"error", 40, "decode failure"⟩ rfl rfl).2⟩

/-- C10: a failed status request (the catch branch of the interval
callback) leaves the component state — upload state, both progress
values, message, session id and the running interval — exactly as it
was, and a later successful poll can still drive the session to
`completed` or to `error`. -/
theorem poll_failure_harmless (s : UState) :
    step (UEvent.poll PollEvent.failed) s = s ∧
    (s.monitorActive = true → ∀ r : StatusResponse,
        (r.status = "completed" →
          (step (UEvent.poll (PollEvent.ok r))
              (step (UEvent.poll PollEvent.failed) s)).uploadState = "completed") ∧
        (r.status = "error" →
          (step (UEvent.poll (PollEvent.ok r))
              (step (UEvent.poll PollEvent.failed) s)).uploadState = "error")) := by
  have hid : step (UEvent.poll PollEvent.failed) s = s := by
    simp [step, pollStep]
  refine ⟨hid, fun hact r => ⟨fun hc => ?_, fun he => ?_⟩⟩
  · rw [hid]
    simp [step, hact, pollStep, pollSuccess, hc]
  · rw [hid]
    have hne : r.status ≠ "completed" := by rw [he]; decide
    simp [step, hact, pollStep, pollSuccess, hne, he]

/-- Witness for C10 at a concrete active session: the failed poll is a
no-op and a subsequent `completed` (resp. `error`) poll terminates the
session accordingly. -/
theorem poll_failure_harmless_w :
    step (UEvent.poll PollEvent.failed) (uploadResolveOk "s1" initState)
      = uploadResolveOk "s1" initState ∧
    (uploadResolveOk "s1" initState).monitorActive = true ∧
    (step (UEvent.poll (PollEvent.ok ⟨"completed", 100, "done"⟩))
        (step (UEvent.poll PollEvent.failed)
          (uploadResolveOk "s1" initState))).uploadState = "completed" ∧
    (step (UEvent.poll (PollEvent.ok ⟨"error", 60, "boom"⟩))
        (step (UEvent.poll PollEvent.failed)
          (uploadResolveOk "s1" initState))).uploadState = "error" :=
  ⟨(poll_failure_harmless (uploadResolveOk "s1" initState)).1, rfl,
   ((poll_failure_harmless (uploadResolveOk "s1" initState)).2 rfl
      ⟨"completed", 100, "done"⟩).1 rfl,
   ((poll_failure_harmless (uploadResolveOk "s1" initState)).2 rfl
      ⟨"error", 60, "boom"⟩).2 rfl⟩

/-! ### The `Timeline` component: segment filtering and topic toggling -/

/-- One serialized timeline segment as consumed by the `Timeline`
component, with the fields of §6: `id`, `screenshot_path`,
`formatted_time_range`, `duration`, `confidence_score`, `summary`,
`key_topics`, `transcript`. -/
structure TimelineSegment where
  id : ℕ
  screenshot_path : String
  formatted_time_range : String
  duration : ℚ
  confidence_score : ℚ
  summary : String
  key_topics : List String
  transcript : String
deriving DecidableEq

/-- `p.isPrefixOf l || …` scan: whether `p` occurs as a contiguous run
inside `l`; models the JS `String.prototype.includes`. -/
def charsInclude (p : List Char) : List Char → Bool
  | [] => p.isEmpty
  | c :: t => p.isPrefixOf (c :: t) || charsInclude p t

/-- `hay.toLowerCase().includes(pat.toLowerCase())` from
`filterSegments`. -/
def strIncludesIC (hay pat : String) : Bool :=
  charsInclude pat.toLower.toList hay.toLower.toList

/-- The search predicate of `filterSegments`: case-insensitive match of
the term against the transcript, the summary, or some key topic. -/
def matchesSearch (term : String) (seg : TimelineSegment) : Bool :=
  strIncludesIC seg.transcript term || strIncludesIC seg.summary term ||
    seg.key_topics.any (fun t => strIncludesIC t term)

/-- The topic predicate of `filterSegments`: the segment carries some
selected topic. -/
def matchesTopics (topics : List String) (seg : TimelineSegment) : Bool :=
  seg.key_topics.any (fun t => topics.contains t)

/-- `filterSegments` from the `Timeline` component: filter by the search
term when it is non-empty (JS truthiness of the string), then by the
selected topics when any are selected. -/
def filterSegments (term : String) (topics : List String)
    (segs : List TimelineSegment) : List TimelineSegment :=
  let f1 := if term = "" then segs else segs.filter (matchesSearch term)
  if 0 < topics.length then f1.filter (matchesTopics topics) else f1

/-- C8: the segment filter always returns a subsequence of the loaded
`timeline_segments` — original order kept, nothing duplicated or
fabricated — and with an empty search term and no selected topics it
returns the list unchanged. -/
theorem filter_segments_sublist_id :
    (∀ (term : String) (topics : List String) (segs : List TimelineSegment),
        (filterSegments term topics segs).Sublist segs) ∧
    (∀ segs : List TimelineSegment, filterSegments "" [] segs = segs) := by
  constructor
  · intro term topics segs
    have h1 : (if term = "" then segs else segs.filter (matchesSearch term)).Sublist
        segs := by
      split
      · exact List.Sublist.refl segs
      · exact List.filter_sublist segs
    show (if 0 < topics.length then
        (if term = "" then segs else segs.filter (matchesSearch term)).filter
          (matchesTopics topics)
      else if term = "" then segs else segs.filter (matchesSearch term)).Sublist segs
    split
    · exact (List.filter_sublist _).trans h1
    · exact h1
  · intro segs
    simp [filterSegments]

/-- `toggleTopic` from the `Timeline` component: remove the topic when
it is already selected, otherwise append it. -/
def toggleTopic (topic : String) (prev : List String) : List String :=
  if prev.contains topic then prev.filter (fun t => t ≠ topic)
  else prev ++ [topic]

/-- C9 counterexample: toggling a selected topic twice does not restore
the original list — the topic is removed and then re-appended at the
end, so `["a", "b"]` becomes `["b", "a"]`. -/
theorem toggle_topic_double_ne :
    toggleTopic "a" (toggleTopic "a" ["a", "b"]) ≠ ["a", "b"] := by decide

/-- Removing one occurrence of a member from a duplicate-free list and
re-consing it is a permutation of the list. -/
lemma cons_filter_ne_perm (t : String) :
    ∀ s : List String, s.Nodup → t ∈ s →
      (t :: s.filter (fun x => x ≠ t)).Perm s := by
  intro s
  induction s with
  | nil => intro _ hm; exact absurd hm (List.not_mem_nil t)
  | cons a as ih =>
      intro hnd hm
      by_cases heq : a = t
      · subst heq
        have hnotin : a ∉ as := (List.nodup_cons.mp hnd).1
        have hstep : (a :: as).filter (fun x => x ≠ a)
            = as.filter (fun x => x ≠ a) := by
          simp [List.filter_cons]
        have hfix : as.filter (fun x => x ≠ a) = as :=
          List.filter_eq_self.mpr
            (fun x hx => decide_eq_true (fun h => hnotin (h ▸ hx)))
        rw [hstep, hfix]
      · have hmem : t ∈ as := by
          rcases List.mem_cons.mp hm with h | h
          · exact absurd h.symm heq
          · exact h
        have hstep : (a :: as).filter (fun x => x ≠ t)
            = a :: as.filter (fun x => x ≠ t) := by
          simp [List.filter_cons, heq]
        rw [hstep]
        exact (List.Perm.swap a t _).trans
          (List.Perm.cons a (ih (List.nodup_cons.mp hnd).2 hmem))

/-- C9 amended: on a duplicate-free selection, toggling a topic twice
yields a list with exactly the original selection (a permutation of it),
and exactly the original list when the topic was not selected; one
application flips the topic's membership. -/
theorem toggle_topic_double_perm (t : String) (s : List String)
    (hnd : s.Nodup) :
    (toggleTopic t (toggleTopic t s)).Perm s ∧
    (t ∉ s → toggleTopic t (toggleTopic t s) = s) ∧
    (t ∈ toggleTopic t s ↔ t ∉ s) := by
  by_cases hm : t ∈ s
  · have h1 : toggleTopic t s = s.filter (fun x => x ≠ t) := by
      simp [toggleTopic, hm]
    have hnotin : t ∉ s.filter (fun x => x ≠ t) := by
      intro hx
      have := List.of_mem_filter hx
      simp at this
    have h2 : toggleTopic t (toggleTopic t s)
        = s.filter (fun x => x ≠ t) ++ [t] := by
      rw [h1]
      simp [toggleTopic, List.mem_filter]
    refine ⟨?_, fun hns => absurd hm hns, ?_⟩
    · rw [h2]
      exact (List.perm_append_singleton t _).trans (cons_filter_ne_perm t s hnd hm)
    · rw [h1]
      exact ⟨fun hx => absurd hx hnotin, fun hx => absurd hm hx⟩
  · have h1 : toggleTopic t s = s ++ [t] := by simp [toggleTopic, hm]
    have h2 : toggleTopic t (toggleTopic t s) = s := by
      rw [h1]
      have hsel : toggleTopic t (s ++ [t])
          = (s ++ [t]).filter (fun x => x ≠ t) := by
        simp [toggleTopic]
      rw [hsel, List.filter_append]
      have hfix : s.filter (fun x => x ≠ t) = s :=
        List.filter_eq_self.mpr
          (fun x hx => decide_eq_true (fun h => hm (h ▸ hx)))
      have hsingle : ([t] : List String).filter (fun x => x ≠ t) = [] := by
        simp
      rw [hfix, hsingle, List.append_nil]
    refine ⟨by rw [h2], fun _ => h2, ?_⟩
    rw [h1]
    simp [hm]

/-- Witness for C9 at a concrete duplicate-free selection not containing
the toggled topic. -/
theorem toggle_topic_double_perm_w :
    (["b", "c"] : List String).Nodup ∧
    (toggleTopic "a" (toggleTopic "a" ["b", "c"])).Perm ["b", "c"] ∧
    toggleTopic "a" (toggleTopic "a" ["b", "c"]) = ["b", "c"] ∧
    ("a" ∈ toggleTopic "a" ["b", "c"] ↔ "a" ∉ (["b", "c"] : List String)) :=
  ⟨by decide,
   (toggle_topic_double_perm "a" ["b", "c"] (by decide)).1,
   (toggle_topic_double_perm "a" ["b", "c"] (by decide)).2.1 (by decide),
   (toggle_topic_double_perm "a" ["b", "c"] (by decide)).2.2⟩

/-! ### Spec-modelled Screen-Change Segmenter (§4.2) -/

/-- Modelled from the spec: a Visual Segment of §3 — `(start, end: float
seconds)` — for the Screen-Change Segmenter, whose backend implementation
(`core/video_analyzer.py`) is not present in the source tree.  The `end`
field is called `stop` because `end` is reserved in Lean; times are
rationals; the stored screenshot reference is omitted (storage layout is
an external collaborator concern, §6). -/
structure VisualSegment where
  start : ℚ
  stop : ℚ
deriving DecidableEq

/-- Length of a visual segment. -/
def segLen (v : VisualSegment) : ℚ := v.stop - v.start

/-- Modelled from the spec: raw change boundaries of §4.2 — a boundary is
declared between consecutive sampled frames whenever their similarity
drops below the threshold.  Each cut records the timestamp of the later
frame of the pair together with the similarity across the boundary (used
later to pick the weaker discontinuity when merging). -/
def boundaryCuts {α : Type} (sim : α → α → ℚ) (thr : ℚ) :
    List (ℚ × α) → List (ℚ × ℚ)
  | (_, f1) :: (t2, f2) :: rest =>
      (if sim f1 f2 < thr then [(t2, sim f1 f2)] else [])
        ++ boundaryCuts sim thr ((t2, f2) :: rest)
  | _ => []

/-- Segments delimited by an ordered list of interior cut times between
the video start `a` and the video end `b`. -/
def segsOfCuts : ℚ → List ℚ → ℚ → List VisualSegment
  | a, [], b => [⟨a, b⟩]
  | a, c :: rest, b => ⟨a, c⟩ :: segsOfCuts c rest b

/-- Index of the first segment shorter than the configured minimum
duration, if any. -/
def firstShort (minD : ℚ) : List VisualSegment → Option ℕ
  | [] => none
  | v :: rest =>
      if segLen v < minD then some 0 else (firstShort minD rest).map (· + 1)

/-- Modelled from the spec: which interior cut to delete in order to
absorb short segment `i` into the adjacent segment sharing the weaker
visual discontinuity (higher similarity), merging into the following
segment on a tie; the first (last) segment can only merge forwards
(backwards), since the virtual boundaries at `0` and `duration` cannot
be deleted. -/
def chooseCut (cuts : List (ℚ × ℚ)) (i : ℕ) : ℕ :=
  if i = 0 then 0
  else if i = cuts.length then i - 1
  else if (cuts.getD (i - 1) (0, 0)).2 ≤ (cuts.getD i (0, 0)).2 then i
  else i - 1

/-- Fuelled merge loop: while some segment is shorter than `minD` and at
least one interior cut remains, delete the cut chosen by `chooseCut`.
The fuel only needs to dominate the number of cuts, since every step
deletes one. -/
def mergeShortF (minD d : ℚ) : ℕ → List (ℚ × ℚ) → List (ℚ × ℚ)
  | 0, cuts => cuts
  | fuel + 1, cuts =>
      match firstShort minD (segsOfCuts 0 (cuts.map Prod.fst) d) with
      | none => cuts
      | some i =>
          match cuts with
          | [] => []
          | _ :: _ =>
              mergeShortF minD d fuel
                (cuts.eraseIdx (min (chooseCut cuts i) (cuts.length - 1)))

/-- Merge all short segments (§4.2): run the fuelled loop with enough
fuel to delete every cut if need be. -/
def mergeShort (minD d : ℚ) (cuts : List (ℚ × ℚ)) : List (ℚ × ℚ) :=
  mergeShortF minD d cuts.length cuts

/-- Modelled from the spec: the Screen-Change Segmenter (§4.2) —
boundary detection on the sampled frame stream followed by the
min-duration merge, producing the ordered Visual Segment list spanning
`[0, d]`. -/
def segmentVideo {α : Type} (sim : α → α → ℚ) (thr minD d : ℚ)
    (frames : List (ℚ × α)) : List VisualSegment :=
  segsOfCuts 0 ((mergeShort minD d (boundaryCuts sim thr frames)).map Prod.fst) d

lemma segsOfCuts_ne_nil (a b : ℚ) (ts : List ℚ) : segsOfCuts a ts b ≠ [] := by
  cases ts <;> simp [segsOfCuts]

lemma segsOfCuts_head_start (a b : ℚ) (ts : List ℚ)
    (h : segsOfCuts a ts b ≠ []) : ((segsOfCuts a ts b).head h).start = a := by
  cases ts <;> rfl

lemma segsOfCuts_getLast_stop :
    ∀ (ts : List ℚ) (a b : ℚ) (h : segsOfCuts a ts b ≠ []),
      ((segsOfCuts a ts b).getLast h).stop = b := by
  intro ts
  induction ts with
  | nil => intro a b h; rfl
  | cons c rest ih =>
      intro a b h
      have hne := segsOfCuts_ne_nil c b rest
      have e : ((⟨a, c⟩ :: segsOfCuts c rest b).getLast
          (List.cons_ne_nil _ _)).stop = b := by
        rw [List.getLast_cons hne]
        exact ih c b hne
      exact e

lemma segsOfCuts_chain :
    ∀ (ts : List ℚ) (a b : ℚ),
      List.Chain' (fun u v => u.stop = v.start) (segsOfCuts a ts b) := by
  intro ts
  induction ts with
  | nil => intro a b; simp [segsOfCuts]
  | cons c rest ih =>
      intro a b
      show List.Chain' _ (⟨a, c⟩ :: segsOfCuts c rest b)
      rw [List.chain'_cons']
      refine ⟨?_, ih c b⟩
      intro y hy
      have hne := segsOfCuts_ne_nil c b rest
      rw [List.head?_eq_head hne] at hy
      have hy2 : (segsOfCuts c rest b).head hne = y := by
        simpa using hy
      have := segsOfCuts_head_start c b rest hne
      rw [hy2] at this
      simp [this]

lemma segsOfCuts_pos :
    ∀ (ts : List ℚ) (a b : ℚ), List.Chain' (· < ·) (a :: ts ++ [b]) →
      ∀ v ∈ segsOfCuts a ts b, v.start < v.stop := by
  intro ts
  induction ts with
  | nil =>
      intro a b h v hv
      have hab : a < b := (List.chain'_cons.mp h).1
      have : v = ⟨a, b⟩ := by simpa [segsOfCuts] using hv
      rw [this]
      exact hab
  | cons c rest ih =>
      intro a b h v hv
      have h' : List.Chain' (· < ·) (a :: c :: (rest ++ [b])) := h
      have hac : a < c := (List.chain'_cons.mp h').1
      have h2 : List.Chain' (· < ·) (c :: rest ++ [b]) := (List.chain'_cons.mp h').2
      have hv' : v ∈ (⟨a, c⟩ : VisualSegment) :: segsOfCuts c rest b := hv
      rcases List.mem_cons.mp hv' with rfl | hv2
      · exact hac
      · exact ih c b h2 v hv2

lemma segsOfCuts_cover :
    ∀ (ts : List ℚ) (a b t : ℚ), a ≤ t → t < b →
      ∃ v ∈ segsOfCuts a ts b, v.start ≤ t ∧ t < v.stop := by
  intro ts
  induction ts with
  | nil =>
      intro a b t h1 h2
      exact ⟨⟨a, b⟩, by simp [segsOfCuts], h1, h2⟩
  | cons c rest ih =>
      intro a b t h1 h2
      by_cases hc : t < c
      · exact ⟨⟨a, c⟩, by simp [segsOfCuts], h1, hc⟩
      · obtain ⟨v, hv, hvs⟩ := ih c b t (not_lt.mp hc) h2
        exact ⟨v, by simp [segsOfCuts, hv], hvs⟩

lemma firstShort_eq_none (minD : ℚ) :
    ∀ segs : List VisualSegment, firstShort minD segs = none →
      ∀ v ∈ segs, minD ≤ segLen v := by
  intro segs
  induction segs with
  | nil => intro _ v hv; cases hv
  | cons u rest ih =>
      intro h v hv
      by_cases hs : segLen u < minD
      · simp [firstShort, hs] at h
      · rcases List.mem_cons.mp hv with rfl | hv2
        · exact not_lt.mp hs
        · refine ih ?_ v hv2
          simpa [firstShort, hs] using h

lemma mergeShortF_sublist (minD d : ℚ) :
    ∀ (fuel : ℕ) (cuts : List (ℚ × ℚ)),
      (mergeShortF minD d fuel cuts).Sublist cuts := by
  intro fuel
  induction fuel with
  | zero => intro cuts; exact List.Sublist.refl _
  | succ n ih =>
      intro cuts
      simp only [mergeShortF]
      split
      · exact List.Sublist.refl _
      · split
        · exact List.Sublist.refl _
        · exact (ih _).trans (List.eraseIdx_sublist _ _)

lemma mergeShortF_post (minD d : ℚ) :
    ∀ (fuel : ℕ) (cuts : List (ℚ × ℚ)), cuts.length ≤ fuel →
      firstShort minD
          (segsOfCuts 0 ((mergeShortF minD d fuel cuts).map Prod.fst) d) = none ∨
        mergeShortF minD d fuel cuts = [] := by
  intro fuel
  induction fuel with
  | zero =>
      intro cuts h
      have hnil : cuts = [] := List.length_eq_zero.mp (Nat.le_zero.mp h)
      right
      rw [hnil]
      rfl
  | succ n ih =>
      intro cuts h
      by_cases hfs :
          firstShort minD (segsOfCuts 0 (cuts.map Prod.fst) d) = none
      · left
        have hres : mergeShortF minD d (n + 1) cuts = cuts := by
          simp [mergeShortF, hfs]
        rw [hres]
        exact hfs
      · obtain ⟨i, hi⟩ := Option.ne_none_iff_exists'.mp hfs
        cases cuts with
        | nil =>
            right
            simp only [List.map_nil] at hi
            simp [mergeShortF, hi]
        | cons c cs =>
            have hj : min (chooseCut (c :: cs) i) ((c :: cs).length - 1)
                < (c :: cs).length := by
              have h1 : (c :: cs).length - 1 < (c :: cs).length := by
                simp
              exact Nat.lt_of_le_of_lt (Nat.min_le_right _ _) h1
            have hlen : ((c :: cs).eraseIdx
                (min (chooseCut (c :: cs) i) ((c :: cs).length - 1))).length ≤ n := by
              rw [List.length_eraseIdx, if_pos hj]
              have := h
              simp only [List.length_cons] at this ⊢
              omega
            have hi' : firstShort minD
                (segsOfCuts 0 (c.1 :: cs.map Prod.fst) d) = some i := by
              simpa using hi
            have hres : mergeShortF minD d (n + 1) (c :: cs)
                = mergeShortF minD d n ((c :: cs).eraseIdx
                    (min (chooseCut (c :: cs) i) ((c :: cs).length - 1))) := by
              simp [mergeShortF, hi']
            rw [hres]
            exact ih _ hlen

lemma boundaryCuts_fst_sublist {α : Type} (sim : α → α → ℚ) (thr : ℚ) :
    ∀ frames : List (ℚ × α),
      ((boundaryCuts sim thr frames).map Prod.fst).Sublist
        ((frames.map Prod.fst).tail) := by
  intro frames
  induction frames with
  | nil => simp [boundaryCuts]
  | cons p rest ih =>
      cases rest with
      | nil =>
          obtain ⟨t1, f1⟩ := p
          simp [boundaryCuts]
      | cons q rest2 =>
          obtain ⟨t1, f1⟩ := p
          obtain ⟨t2, f2⟩ := q
          show ((((if sim f1 f2 < thr then [(t2, sim f1 f2)] else [])
              ++ boundaryCuts sim thr ((t2, f2) :: rest2)).map Prod.fst)).Sublist
            (t2 :: rest2.map Prod.fst)
          rw [List.map_append]
          have ih2 : ((boundaryCuts sim thr ((t2, f2) :: rest2)).map
              Prod.fst).Sublist (rest2.map Prod.fst) := ih
          split
          · exact List.Sublist.cons₂ t2 ih2
          · simp only [List.map_nil, List.nil_append]
            exact ih2.cons t2

/-- C6: spec-modelled — for every frame stream sampled strictly
increasingly inside the video `[0, d)` the Segmenter output is a
non-empty list of Visual Segments that is contiguous (each segment ends
where the next starts), has only segments of positive length (hence
non-overlapping), starts at `0`, ends at `d`, covers every instant of
`[0, d)`, and every segment except possibly the last has length at
least `min_duration`. -/
theorem segmenter_output_spec {α : Type} (sim : α → α → ℚ) (thr minD d : ℚ)
    (frames : List (ℚ × α)) (hd : 0 < d)
    (hsort : List.Chain' (fun p q : ℚ × α => p.1 < q.1) frames)
    (hrange : ∀ p ∈ frames, 0 ≤ p.1 ∧ p.1 < d) :
    segmentVideo sim thr minD d frames ≠ [] ∧
    List.Chain' (fun u v => u.stop = v.start) (segmentVideo sim thr minD d frames) ∧
    (∀ v ∈ segmentVideo sim thr minD d frames, v.start < v.stop) ∧
    (∀ h : segmentVideo sim thr minD d frames ≠ [],
        ((segmentVideo sim thr minD d frames).head h).start = 0 ∧
        ((segmentVideo sim thr minD d frames).getLast h).stop = d) ∧
    (∀ t : ℚ, 0 ≤ t → t < d →
        ∃ v ∈ segmentVideo sim thr minD d frames, v.start ≤ t ∧ t < v.stop) ∧
    (∀ (i : ℕ) (hi : i + 1 < (segmentVideo sim thr minD d frames).length),
        minD ≤ segLen ((segmentVideo sim thr minD d frames).get
          ⟨i, Nat.lt_of_succ_lt hi⟩)) := by
  have hTchain : List.Chain' (· < ·) (frames.map Prod.fst) :=
    (List.chain'_map Prod.fst).mpr hsort
  have hTpair : List.Pairwise (· < ·) (frames.map Prod.fst) :=
    List.chain'_iff_pairwise.mp hTchain
  have hsub : ((mergeShort minD d (boundaryCuts sim thr frames)).map
      Prod.fst).Sublist ((frames.map Prod.fst).tail) :=
    (List.Sublist.map Prod.fst
      (mergeShortF_sublist minD d _ _)).trans
      (boundaryCuts_fst_sublist sim thr frames)
  set ts := (mergeShort minD d (boundaryCuts sim thr frames)).map Prod.fst with hts
  have htm : ∀ x ∈ ts, 0 < x ∧ x < d := by
    intro x hx
    have hx' : x ∈ (frames.map Prod.fst).tail := hsub.subset hx
    have hxT : x ∈ frames.map Prod.fst :=
      (List.tail_sublist _).subset hx'
    obtain ⟨p, hp, hpx⟩ := List.mem_map.mp hxT
    constructor
    · cases hT : frames.map Prod.fst with
      | nil => rw [hT] at hx'; cases hx'
      | cons t0 T2 =>
          rw [hT] at hx'
          have h0x : t0 < x := by
            have := hT ▸ hTpair
            exact (List.pairwise_cons.mp this).1 x hx'
          have ht0 : 0 ≤ t0 := by
            have : t0 ∈ frames.map Prod.fst := by rw [hT]; exact List.mem_cons_self _ _
            obtain ⟨p0, hp0, hp0x⟩ := List.mem_map.mp this
            exact hp0x ▸ (hrange p0 hp0).1
          exact lt_of_le_of_lt ht0 h0x
    · exact hpx ▸ (hrange p hp).2
  have htspair : List.Pairwise (· < ·) ts :=
    List.Pairwise.sublist hsub
      (List.Pairwise.sublist (List.tail_sublist _) hTpair)
  have hfull : List.Chain' (· < ·) (0 :: (ts ++ [d])) := by
    apply List.chain'_iff_pairwise.mpr
    rw [List.pairwise_cons]
    constructor
    · intro x hx
      rcases List.mem_append.mp hx with hx1 | hx2
      · exact (htm x hx1).1
      · have : x = d := by simpa using hx2
        rw [this]; exact hd
    · rw [List.pairwise_append]
      refine ⟨htspair, List.pairwise_singleton _ _, ?_⟩
      intro x hx y hy
      have : y = d := by simpa using hy
      rw [this]
      exact (htm x hx).2
  refine ⟨segsOfCuts_ne_nil 0 d ts, segsOfCuts_chain ts 0 d,
    segsOfCuts_pos ts 0 d hfull,
    fun h => ⟨segsOfCuts_head_start 0 d ts h, segsOfCuts_getLast_stop ts 0 d h⟩,
    fun t h1 h2 => segsOfCuts_cover ts 0 d t h1 h2, ?_⟩
  intro i hi
  rcases mergeShortF_post minD d (boundaryCuts sim thr frames).length
      (boundaryCuts sim thr frames) (Nat.le_refl _) with hnone | hnil
  · have hall := firstShort_eq_none minD (segsOfCuts 0 ts d) hnone
    exact hall _ (List.get_mem _ _ _)
  · exfalso
    have hts0 : ts = [] := by rw [hts, mergeShort, hnil]; rfl
    have hlen1 : (segmentVideo sim thr minD d frames).length = 1 := by
      show (segsOfCuts 0 ts d).length = 1
      rw [hts0]
      rfl
    rw [hlen1] at hi
    omega

/-- Witness for C6 at a concrete three-frame stream over a 10-second
video with natural-number frame images and equality similarity. -/
theorem segmenter_output_spec_w :
    (0 : ℚ) < 10 ∧
    List.Chain' (fun p q : ℚ × ℕ => p.1 < q.1) [(0, 5), (3, 5), (6, 7)] ∧
    (∀ p ∈ ([(0, 5), (3, 5), (6, 7)] : List (ℚ × ℕ)), 0 ≤ p.1 ∧ p.1 < 10) ∧
    segmentVideo (fun x y : ℕ => if x = y then 1 else 0) 1 2 10
        [(0, 5), (3, 5), (6, 7)] ≠ [] :=
  ⟨by decide,
   List.chain'_cons.mpr ⟨by decide,
     List.chain'_cons.mpr ⟨by decide, List.chain'_singleton _⟩⟩,
   by decide,
   (segmenter_output_spec (fun x y : ℕ => if x = y then 1 else 0) 1 2 10
      [(0, 5), (3, 5), (6, 7)] (by decide)
      (List.chain'_cons.mpr ⟨by decide,
        List.chain'_cons.mpr ⟨by decide, List.chain'_singleton _⟩⟩)
      (by decide)).1⟩

/-! ### Spec-modelled Content Correlator confidence scoring (§4.5) -/

/-- Modelled from the spec: a Transcript Chunk of §3 — `(start, end:
float seconds; text: string; success: bool)` — as produced by the
Transcription Aligner; the `end` field is called `stop` because `end` is
reserved in Lean. -/
structure TranscriptChunk where
  start : ℚ
  stop : ℚ
  text : String
  success : Bool
deriving DecidableEq

/-- Length of the intersection of a chunk's time range with a segment's
window. -/
def overlapLen (v : VisualSegment) (c : TranscriptChunk) : ℚ :=
  max 0 (min c.stop v.stop - max c.start v.start)

/-- §4.5: a chunk overlaps a segment when its `[start, end)` range
intersects the segment's window. -/
def intersects (v : VisualSegment) (c : TranscriptChunk) : Bool :=
  decide (max c.start v.start < min c.stop v.stop)

/-- The Transcript Chunks overlapping a Visual Segment. -/
def overlappingChunks (v : VisualSegment)
    (chunks : List TranscriptChunk) : List TranscriptChunk :=
  chunks.filter (intersects v)

/-- Total time within the segment's window covered by successful
chunks. -/
def coveredLen (v : VisualSegment) (chunks : List TranscriptChunk) : ℚ :=
  ((chunks.filter (fun c => c.success)).map (overlapLen v)).sum

/-- Fraction of the segment's duration covered by successful chunks. -/
def coverageFrac (v : VisualSegment) (chunks : List TranscriptChunk) : ℚ :=
  coveredLen v chunks / segLen v

/-- Modelled from the spec: the fixed visual-only confidence baseline of
§4.5 (no audio track: fully confident about the visual
classification). -/
def visualOnlyConfidence : ℚ := 100

/-- Modelled from the spec: the lowered confidence of §4.5 for a segment
whose overlapping chunks all failed (missing evidence). -/
def missingEvidenceConfidence : ℚ := 25

/-- Modelled from the spec: the lower-bound floor of §4.5 applied when
coverage is partial. -/
def coverageFloor : ℚ := 40

/-- Modelled from the spec: confidence of a Timeline Segment per the
three-way classification of §4.5 — visual-only baseline with no audio,
lowered missing-evidence value when every overlapping chunk failed, and
otherwise the coverage fraction scaled to 0–100 with the floor. -/
def segmentConfidence (hasAudio : Bool) (v : VisualSegment)
    (chunks : List TranscriptChunk) : ℚ :=
  if hasAudio = false then visualOnlyConfidence
  else if (overlappingChunks v chunks).all (fun c => !c.success) then
    missingEvidenceConfidence
  else max coverageFloor (100 * coverageFrac v (overlappingChunks v chunks))

/-- Concatenation, in time order, of the successful overlapping chunks'
text (§4.5). -/
def concatTranscript (v : VisualSegment)
    (chunks : List TranscriptChunk) : String :=
  String.intercalate " "
    (((overlappingChunks v chunks).filter (fun c => c.success)).map
      (fun c => c.text))

/-- Modelled from the spec: one Timeline Segment built by the Correlator
from a Visual Segment and the chunk list; the external summarization
service is a black-box function returning `none` on failure, in which
case summary and topics stay empty and the session is not failed
(§4.5).  Screenshot path and formatted time range are presentation
concerns filled with placeholders. -/
def buildTimelineSegment (summarize : String → Option (String × List String))
    (hasAudio : Bool) (chunks : List TranscriptChunk) (idx : ℕ)
    (v : VisualSegment) : TimelineSegment :=
  let ov := overlappingChunks v chunks
  let transcribed := hasAudio && !(ov.all fun c => !c.success)
  let tr := if transcribed then concatTranscript v chunks else ""
  let st := if transcribed then (summarize tr).getD ("", []) else ("", [])
  { id := idx, screenshot_path := "", formatted_time_range := "",
    duration := segLen v,
    confidence_score := segmentConfidence hasAudio v chunks,
    summary := st.1, key_topics := st.2, transcript := tr }

/-- Build the Timeline Segments of a session, indexed in order. -/
def correlateSegs (summarize : String → Option (String × List String))
    (hasAudio : Bool) (chunks : List TranscriptChunk) :
    ℕ → List VisualSegment → List TimelineSegment
  | _, [] => []
  | i, v :: rest =>
      buildTimelineSegment summarize hasAudio chunks i v ::
        correlateSegs summarize hasAudio chunks (i + 1) rest

/-- A Timeline Result (§3): session id, video metadata, the ordered
Timeline Segments, and the aggregate segment count. -/
structure TimelineResult where
  session_id : String
  video_filename : String
  total_segments : ℕ
  timeline_segments : List TimelineSegment
deriving DecidableEq

/-- Modelled from the spec: the Content Correlator (§4.5) assembling the
Timeline Result from the Visual Segments and the reconciled chunk
list. -/
def correlate (summarize : String → Option (String × List String))
    (hasAudio : Bool) (vsegs : List VisualSegment)
    (chunks : List TranscriptChunk) (sid fname : String) : TimelineResult :=
  let segs := correlateSegs summarize hasAudio chunks 0 vsegs
  { session_id := sid, video_filename := fname,
    total_segments := segs.length, timeline_segments := segs }

lemma overlapLen_nonneg (v : VisualSegment) (c : TranscriptChunk) :
    0 ≤ overlapLen v c := le_max_left 0 _

/-- Overlap lengths of time-ordered, non-overlapping chunks whose first
chunk starts no earlier than `t` sum to at most the part of the
segment's window after `t`. -/
lemma sum_overlap_le (v : VisualSegment) :
    ∀ (chunks : List TranscriptChunk) (t : ℚ),
      List.Chain' (fun c1 c2 => c1.stop ≤ c2.start) chunks →
      (∀ c ∈ chunks, c.start ≤ c.stop) →
      (∀ c ∈ chunks.head?, t ≤ c.start) →
      (chunks.map (overlapLen v)).sum ≤ max 0 (v.stop - max v.start t) := by
  intro chunks
  induction chunks with
  | nil =>
      intro t _ _ _
      simp only [List.map_nil, List.sum_nil]
      exact le_max_left 0 _
  | cons c rest ih =>
      intro t hch hval hh
      have hch' := (List.chain'_cons'.mp hch).2
      have hhead : ∀ x ∈ rest.head?, c.stop ≤ x.start :=
        (List.chain'_cons'.mp hch).1
      have hrest := ih c.stop hch'
        (fun x hx => hval x (List.mem_cons_of_mem _ hx)) hhead
      have hts : t ≤ c.start := hh c (by simp)
      have hcs : c.start ≤ c.stop := hval c (List.mem_cons_self _ _)
      rw [List.map_cons, List.sum_cons]
      have hmt : max v.start t ≤ max v.start c.stop :=
        max_le_max le_rfl (hts.trans hcs)
      have hmt2 : max v.start t ≤ max c.start v.start := by
        rw [max_comm c.start v.start]
        exact max_le_max le_rfl hts
      by_cases hA : min c.stop v.stop - max c.start v.start ≤ 0
      · have hAz : overlapLen v c = 0 := max_eq_left hA
        rw [hAz, zero_add]
        calc (rest.map (overlapLen v)).sum
            ≤ max 0 (v.stop - max v.start c.stop) := hrest
          _ ≤ max 0 (v.stop - max v.start t) :=
              max_le_max le_rfl (by linarith)
      · push_neg at hA
        have hAv : overlapLen v c = min c.stop v.stop - max c.start v.start :=
          max_eq_right (le_of_lt hA)
        by_cases hB : v.stop - max v.start c.stop ≤ 0
        · have hrest0 : (rest.map (overlapLen v)).sum ≤ 0 := by
            have := hrest
            rwa [max_eq_left hB] at this
          have hAle : overlapLen v c ≤ v.stop - max v.start t := by
            rw [hAv]
            have h1 : min c.stop v.stop ≤ v.stop := min_le_right _ _
            linarith
          have hZ : v.stop - max v.start t ≤ max 0 (v.stop - max v.start t) :=
            le_max_right _ _
          linarith
        · push_neg at hB
          have hcv : c.stop ≤ v.stop := by
            have h2 : c.stop ≤ max v.start c.stop := le_max_right _ _
            linarith
          have hvc : v.start < c.stop := by
            have h2 : v.start ≤ max c.start v.start := le_max_right _ _
            have h3 : min c.stop v.stop ≤ c.stop := min_le_left _ _
            linarith
          have hminr : min c.stop v.stop = c.stop := min_eq_left hcv
          have hmaxr : max v.start c.stop = c.stop :=
            max_eq_right (le_of_lt hvc)
          have hrest' : (rest.map (overlapLen v)).sum
              ≤ v.stop - max v.start c.stop := by
            have := hrest
            rwa [max_eq_right (le_of_lt hB)] at this
          have hZ : v.stop - max v.start t ≤ max 0 (v.stop - max v.start t) :=
            le_max_right _ _
          rw [hAv, hminr]
          rw [hmaxr] at hrest'
          linarith

lemma coveredLen_nonneg (v : VisualSegment) (chunks : List TranscriptChunk) :
    0 ≤ coveredLen v chunks := by
  apply List.sum_nonneg
  intro x hx
  obtain ⟨c, _, rfl⟩ := List.mem_map.mp hx
  exact overlapLen_nonneg v c

lemma coveredLen_le (v : VisualSegment) (chunks : List TranscriptChunk)
    (hord : List.Pairwise (fun c1 c2 => c1.stop ≤ c2.start) chunks)
    (hval : ∀ c ∈ chunks, c.start ≤ c.stop) :
    coveredLen v chunks ≤ max 0 (segLen v) := by
  have hordf : List.Pairwise (fun c1 c2 => c1.stop ≤ c2.start)
      (chunks.filter (fun c => c.success)) := List.Pairwise.filter _ hord
  have hvalf : ∀ c ∈ chunks.filter (fun c => c.success), c.start ≤ c.stop :=
    fun c hx => hval c (List.mem_of_mem_filter hx)
  unfold coveredLen
  cases hfl : chunks.filter (fun c => c.success) with
  | nil => simp [segLen]
  | cons c0 tl =>
      have hch : List.Chain' (fun c1 c2 => c1.stop ≤ c2.start) (c0 :: tl) :=
        hfl ▸ hordf.chain'
      have hval' : ∀ c ∈ c0 :: tl, c.start ≤ c.stop := hfl ▸ hvalf
      have happ := sum_overlap_le v (c0 :: tl) (min v.start c0.start) hch hval'
        (by
          intro x hx
          have hx0 : c0 = x := by simpa using hx
          subst hx0
          exact min_le_right _ _)
      have hmx : max v.start (min v.start c0.start) = v.start :=
        max_eq_left (min_le_left _ _)
      rw [hmx] at happ
      exact happ

lemma coverageFrac_mem (v : VisualSegment) (chunks : List TranscriptChunk)
    (hv : v.start < v.stop)
    (hord : List.Pairwise (fun c1 c2 => c1.stop ≤ c2.start) chunks)
    (hval : ∀ c ∈ chunks, c.start ≤ c.stop) :
    0 ≤ coverageFrac v chunks ∧ coverageFrac v chunks ≤ 1 := by
  have hlen : 0 < segLen v := by unfold segLen; linarith
  constructor
  · exact div_nonneg (coveredLen_nonneg v chunks) (le_of_lt hlen)
  · rw [coverageFrac, div_le_one hlen]
    have h := coveredLen_le v chunks hord hval
    rwa [max_eq_right (le_of_lt hlen)] at h

lemma segmentConfidence_mem (hasAudio : Bool) (v : VisualSegment)
    (chunks : List TranscriptChunk) (hv : v.start < v.stop)
    (hord : List.Pairwise (fun c1 c2 => c1.stop ≤ c2.start) chunks)
    (hval : ∀ c ∈ chunks, c.start ≤ c.stop) :
    0 ≤ segmentConfidence hasAudio v chunks ∧
      segmentConfidence hasAudio v chunks ≤ 100 := by
  have hordo : List.Pairwise (fun c1 c2 => c1.stop ≤ c2.start)
      (overlappingChunks v chunks) := List.Pairwise.filter _ hord
  have hvalo : ∀ c ∈ overlappingChunks v chunks, c.start ≤ c.stop :=
    fun c hx => hval c (List.mem_of_mem_filter hx)
  have hfrac := coverageFrac_mem v (overlappingChunks v chunks) hv hordo hvalo
  unfold segmentConfidence
  split_ifs
  · constructor <;> norm_num [visualOnlyConfidence]
  · constructor <;> norm_num [missingEvidenceConfidence]
  · constructor
    · have h1 : (0 : ℚ) ≤ coverageFloor := by norm_num [coverageFloor]
      exact le_trans h1 (le_max_left _ _)
    · apply max_le
      · norm_num [coverageFloor]
      · linarith [hfrac.2]

lemma correlateSegs_mem (summarize : String → Option (String × List String))
    (hasAudio : Bool) (chunks : List TranscriptChunk) :
    ∀ (i : ℕ) (vs : List VisualSegment) (ts : TimelineSegment),
      ts ∈ correlateSegs summarize hasAudio chunks i vs →
      ∃ j v, v ∈ vs ∧ ts = buildTimelineSegment summarize hasAudio chunks j v := by
  intro i vs
  induction vs generalizing i with
  | nil => intro ts hts; cases hts
  | cons v rest ih =>
      intro ts hts
      rcases List.mem_cons.mp hts with heq | hmem
      · exact ⟨i, v, List.mem_cons_self _ _, heq⟩
      · obtain ⟨j, v', hv', he⟩ := ih (i + 1) ts hmem
        exact ⟨j, v', List.mem_cons_of_mem _ hv', he⟩

lemma buildTimelineSegment_confidence
    (summarize : String → Option (String × List String)) (hasAudio : Bool)
    (chunks : List TranscriptChunk) (idx : ℕ) (v : VisualSegment) :
    (buildTimelineSegment summarize hasAudio chunks idx v).confidence_score
      = segmentConfidence hasAudio v chunks := rfl

/-- C7: spec-modelled — every Timeline Segment of a Timeline Result
returned by the Correlator has a confidence score in `[0, 100]`,
provided the Visual Segments have positive length and the Aligner's
chunk list is time-ordered and non-overlapping with valid time
bounds. -/
theorem confidence_score_in_range
    (summarize : String → Option (String × List String)) (hasAudio : Bool)
    (vsegs : List VisualSegment) (chunks : List TranscriptChunk)
    (sid fname : String)
    (hv : ∀ v ∈ vsegs, v.start < v.stop)
    (hord : List.Pairwise (fun c1 c2 => c1.stop ≤ c2.start) chunks)
    (hval : ∀ c ∈ chunks, c.start ≤ c.stop) :
    ∀ ts ∈ (correlate summarize hasAudio vsegs chunks sid fname).timeline_segments,
      0 ≤ ts.confidence_score ∧ ts.confidence_score ≤ 100 := by
  intro ts hts
  have hts' : ts ∈ correlateSegs summarize hasAudio chunks 0 vsegs := hts
  obtain ⟨j, v, hvmem, he⟩ :=
    correlateSegs_mem summarize hasAudio chunks 0 vsegs ts hts'
  rw [he, buildTimelineSegment_confidence]
  exact segmentConfidence_mem hasAudio v chunks (hv v hvmem) hord hval

/-- Witness for C7 at a one-segment, one-chunk session with a failing
summarization service. -/
theorem confidence_score_in_range_w :
    (∀ v ∈ ([⟨0, 10⟩] : List VisualSegment), v.start < v.stop) ∧
    List.Pairwise (fun c1 c2 => c1.stop ≤ c2.start)
      ([⟨0, 4, "hello", true⟩] : List TranscriptChunk) ∧
    (∀ c ∈ ([⟨0, 4, "hello", true⟩] : List TranscriptChunk),
      c.start ≤ c.stop) ∧
    (∀ ts ∈ (correlate (fun _ => none) true [⟨0, 10⟩] [⟨0, 4, "hello", true⟩]
        "s1" "demo.mp4").timeline_segments,
      0 ≤ ts.confidence_score ∧ ts.confidence_score ≤ 100) :=
  ⟨by decide, by decide, by decide,
   confidence_score_in_range (fun _ => none) true [⟨0, 10⟩]
     [⟨0, 4, "hello", true⟩] "s1" "demo.mp4" (by decide) (by decide) (by decide)⟩

end VideoTimeline
